import Mathlib

/-!
Verification of the KanagawaEngine CPU-frequency controller
(src/Sources/KanagawaEngine.cpp) against its specification.

Shallow embedding notes:
* `unsigned long long` arithmetic is modelled as `Nat` with explicit
  reduction modulo `2 ^ 64` (`sub64` is C unsigned subtraction).
* The C `float`/`double` arithmetic of the utilization formula and of the
  percentile index is modelled over `ℚ`.  Every numeric constant involved
  (`0.0`, `0.50`, `0.75`, `1.0`, `100.0`, the threshold `40`) is a dyadic
  rational that is exactly representable in IEEE float/double, and the
  percentile products `count * percent` (with `count ≤ 100`) are exact,
  so the rational model agrees with the machine arithmetic on the claims
  considered here.
* File I/O is the embedding boundary: a scaling domain is modelled by the
  readable contents of its files (`DomainFS`), and the side effects of
  `apply_profile` are modelled as the ordered trace of attempted writes.
* The C cast `(int)(count * percent)` truncates toward zero; for the
  nonnegative `percent` values the program uses this equals
  `Int.toNat ∘ Int.floor`, which is how it is embedded.
-/

/-- Width of the C `unsigned long long` type. -/
def W64 : Nat := 2 ^ 64

/-- C unsigned 64-bit subtraction `a - b` (wraps modulo `2 ^ 64`). -/
def sub64 (a b : Nat) : Nat := (W64 + a % W64 - b % W64) % W64

/-- One sample of `/proc/stat`: cumulative idle and total tick counters,
as computed by `get_cpu_times` (`idle = idl + iowait`,
`total = user + nice + system + idl + iowait + irq + softirq + steal`). -/
structure CpuSnapshot where
  idle : Nat
  total : Nat
deriving DecidableEq

/-- The utilization computation of `main`:
`diff_total = curr_total - prev_total`, `diff_idle = curr_idle - prev_idle`
in unsigned 64-bit arithmetic, `usage = 0.0` unless `diff_total > 0`, in
which case `usage = (100.0 * (diff_total - diff_idle)) / diff_total`. -/
def utilization (prev curr : CpuSnapshot) : ℚ :=
  let diff_total := sub64 curr.total prev.total
  let diff_idle := sub64 curr.idle prev.idle
  if diff_total > 0 then
    (100 * (sub64 diff_total diff_idle : ℚ)) / (diff_total : ℚ)
  else 0

/-- The readable state of one scaling domain's control directory.
`availFreqs` is the token list parsed from `scaling_available_frequencies`
(each token already converted by `atoi`); `none` means the file could not
be opened.  `cpuinfoMax` is the value of `cpuinfo_max_freq`; `none` means
that fallback file could not be opened. -/
structure DomainFS where
  availFreqs : Option (List Int)
  cpuinfoMax : Option Int

/-- Embedding of `get_target_freq` from KanagawaEngine.cpp.
If `scaling_available_frequencies` is unreadable: with `return_abs_max`
set, fall back to `cpuinfo_max_freq` (returning its value if readable);
in every other unreadable case return 0.  Otherwise parse at most 100
tokens, return 0 on an empty parse, sort ascending (the bubble sort of the
source produces the unique ascending reordering, embedded here as
`insertionSort`), and select the last element, the first element, or the
element at index `(int)(count * percent)` clamped to `count - 1`. -/
def get_target_freq (fs : DomainFS) (percent : ℚ)
    (return_abs_max : Bool) (return_abs_min : Bool) : Int :=
  match fs.availFreqs with
  | none =>
    if return_abs_max then
      match fs.cpuinfoMax with
      | some val => val
      | none => 0
    else 0
  | some tokens =>
    let freqs := tokens.take 100
    let count := freqs.length
    if count = 0 then 0
    else
      let sorted := freqs.insertionSort (· ≤ ·)
      if return_abs_max then sorted.getD (count - 1) 0
      else if return_abs_min then sorted.getD 0 0
      else
        let index := min (⌊(count : ℚ) * percent⌋).toNat (count - 1)
        sorted.getD index 0

/-- Resolution modes of the spec's `FrequencyTableResolver`. -/
inductive Mode where
  | absoluteMax : Mode
  | absoluteMin : Mode
  | percentile : ℚ → Mode

/-- The spec's `resolve(domainPath, mode)`, realized by `get_target_freq`
with the flag/percent combinations used at the call sites of
`apply_profile` (`(1.0, 1, 0)`, `(0.0, 0, 1)`, `(p, 0, 0)`). -/
def resolve (fs : DomainFS) : Mode → Int
  | Mode.absoluteMax => get_target_freq fs 1 true false
  | Mode.absoluteMin => get_target_freq fs 0 false true
  | Mode.percentile p => get_target_freq fs p false false

/-- The two writable boundary control files of a scaling domain. -/
inductive BoundFile where
  | minFreq : BoundFile
  | maxFreq : BoundFile
deriving DecidableEq

/-- The body of the per-domain loop of `apply_profile`, as the ordered
trace of attempted boundary-file writes for one domain.  Resolve
`absolute_max` and `absolute_min`; if either is 0, no writes (the
`continue`).  High load: write `scaling_max_freq := absolute_max` then
`scaling_min_freq := target_75`.  Low load: write
`scaling_min_freq := absolute_min` then `scaling_max_freq := target_50`. -/
def apply_domain (is_high_load : Bool) (fs : DomainFS) : List (BoundFile × Int) :=
  let absolute_max := get_target_freq fs 1 true false
  let absolute_min := get_target_freq fs 0 false true
  if absolute_max = 0 || absolute_min = 0 then []
  else if is_high_load then
    let target_75 := get_target_freq fs (3/4) false false
    [(BoundFile.maxFreq, absolute_max), (BoundFile.minFreq, target_75)]
  else
    let target_50 := get_target_freq fs (1/2) false false
    [(BoundFile.minFreq, absolute_min), (BoundFile.maxFreq, target_50)]

/-- `apply_profile` over the discovered domain list starting at index `n`:
the concatenated write traces, each write tagged with the index of the
domain it belongs to. -/
def apply_profile_from (is_high_load : Bool) : Nat → List DomainFS → List (Nat × BoundFile × Int)
  | _, [] => []
  | n, fs :: rest =>
      (apply_domain is_high_load fs).map (fun w => (n, w.1, w.2))
        ++ apply_profile_from is_high_load (n + 1) rest

/-- Embedding of `apply_profile`: the ordered, domain-tagged write trace
over all discovered scaling domains. -/
def apply_profile (is_high_load : Bool) (domains : List DomainFS) : List (Nat × BoundFile × Int) :=
  apply_profile_from is_high_load 0 domains

/-- The writes of `apply_profile` that touch domain `i`. -/
def domain_writes (trace : List (Nat × BoundFile × Int)) (i : Nat) : List (BoundFile × Int) :=
  (trace.filter (fun w => w.1 = i)).map (fun w => w.2)

/-- The threshold classification of `main`:
`usage > CPU_USAGE_THRESHOLD` (`40`) selects the high-load profile
(`apply_profile(1)`), otherwise the low-load profile (`apply_profile(0)`). -/
def classify (usage : ℚ) : Bool := usage > 40

/-- Embedding of `get_cpu_times`: on success the out-parameters receive the
fresh snapshot; if `/proc/stat` cannot be opened the function returns
early and the out-parameters keep their previous values. -/
def get_cpu_times (reading : Option CpuSnapshot) (old : CpuSnapshot) : CpuSnapshot :=
  match reading with
  | none => old
  | some s => s

/-- The rolling state of `main`: the `prev_*` and `curr_*` variables. -/
structure LoopState where
  prev : CpuSnapshot
  curr : CpuSnapshot
deriving DecidableEq

/-- The state of `main` after the initial baseline read: `prev` receives
the baseline sample (or keeps its zero initialization when `/proc/stat` is
unreadable), `curr` is still zero-initialized. -/
def init_state (baseline : Option CpuSnapshot) : LoopState :=
  { prev := get_cpu_times baseline ⟨0, 0⟩, curr := ⟨0, 0⟩ }

/-- One iteration of the `while` loop of `main`: sample into `curr`
(keeping the old value when unreadable), compute `usage` from
`(prev, curr)`, then set `prev := curr` for the next tick.  Returns the
new state and the usage of this tick. -/
def loop_step (s : LoopState) (reading : Option CpuSnapshot) : LoopState × ℚ :=
  let curr := get_cpu_times reading s.curr
  ({ prev := curr, curr := curr }, utilization s.prev curr)

/-- The usage values computed by successive loop iterations fed by the
given sequence of `/proc/stat` read results. -/
def run_loop : LoopState → List (Option CpuSnapshot) → List ℚ
  | _, [] => []
  | s, r :: rs =>
      let p := loop_step s r
      p.2 :: run_loop p.1 rs

/-! ### Helper lemmas -/

/-- Unsigned subtraction of a value from itself is zero. -/
lemma sub64_self (a : Nat) : sub64 a a = 0 := by
  simp [sub64]

/-- Utilization of two identical snapshots is zero. -/
lemma utilization_self (c : CpuSnapshot) : utilization c c = 0 := by
  simp [utilization, sub64_self]

/-- `getD` with default 0 is monotone on a `≤`-sorted list of integers,
for indices within bounds. -/
lemma getD_le_getD_of_sorted {l : List Int} (hs : l.Sorted (fun a b => a ≤ b))
    {i j : Nat} (hij : i ≤ j) (hj : j < l.length) : l.getD i 0 ≤ l.getD j 0 := by
  have hi : i < l.length := lt_of_le_of_lt hij hj
  rw [List.getD_eq_getElem _ _ hi, List.getD_eq_getElem _ _ hj]
  exact hs.rel_get_of_le (a := ⟨i, hi⟩) (b := ⟨j, hj⟩) hij

/-- If the absolute-minimum resolution of a domain is nonzero, the
frequency table was readable and parsed to a nonempty list. -/
lemma resolved_min_readable (fs : DomainFS)
    (hB : get_target_freq fs 0 false true ≠ 0) :
    ∃ l, fs.availFreqs = some l ∧ l.take 100 ≠ [] := by
  rcases hf : fs.availFreqs with _ | l
  · exact absurd (by simp [get_target_freq, hf]) hB
  · refine ⟨l, rfl, fun hnil => hB ?_⟩
    simp [get_target_freq, hf, hnil]

/-- Reduction of `resolve` with mode `absoluteMax` on a readable,
nonempty table. -/
lemma resolve_max_readable (fs : DomainFS) (l : List Int)
    (hfs : fs.availFreqs = some l) (hne : l.take 100 ≠ []) :
    resolve fs Mode.absoluteMax =
      ((l.take 100).insertionSort (fun a b => a ≤ b)).getD ((l.take 100).length - 1) 0 := by
  simp only [resolve, get_target_freq, hfs]
  rw [if_neg (by simpa using hne)]
  simp

/-- Reduction of `resolve` with mode `absoluteMin` on a readable,
nonempty table. -/
lemma resolve_min_readable (fs : DomainFS) (l : List Int)
    (hfs : fs.availFreqs = some l) (hne : l.take 100 ≠ []) :
    resolve fs Mode.absoluteMin =
      ((l.take 100).insertionSort (fun a b => a ≤ b)).getD 0 0 := by
  simp only [resolve, get_target_freq, hfs]
  rw [if_neg (by simpa using hne)]
  simp

/-- Reduction of `resolve` with a percentile mode on a readable,
nonempty table. -/
lemma resolve_pct_readable (fs : DomainFS) (l : List Int) (p : ℚ)
    (hfs : fs.availFreqs = some l) (hne : l.take 100 ≠ []) :
    resolve fs (Mode.percentile p) =
      ((l.take 100).insertionSort (fun a b => a ≤ b)).getD
        (min (⌊((l.take 100).length : ℚ) * p⌋).toNat ((l.take 100).length - 1)) 0 := by
  simp only [resolve, get_target_freq, hfs]
  rw [if_neg (by simpa using hne)]
  simp

/-- All usage values of a loop run started with `prev = curr` and fed only
failed reads are zero, and the state never changes. -/
lemma run_loop_const (n : Nat) (c : CpuSnapshot) :
    run_loop ⟨c, c⟩ (List.replicate n none) = List.replicate n 0 := by
  induction n with
  | zero => rfl
  | succ k ih =>
      simp only [List.replicate, run_loop, loop_step, get_cpu_times, utilization_self]
      exact congrArg (List.cons 0) ih

/-! ### Claims -/

/-- C2: `utilization` returns 0.0 exactly when the unsigned 64-bit delta
`curr.total - prev.total` is zero, and otherwise equals
`100 * ((curr.total-prev.total) - (curr.idle-prev.idle)) / (curr.total-prev.total)`
with all subtractions in unsigned 64-bit arithmetic; the snapshot pair
`{idle=0,total=0}`, `{idle=50,total=200}` yields 75.0, and any two
snapshots with equal `total` yield 0.0. -/
theorem utilization_formula (prev curr : CpuSnapshot) (a b t : Nat) :
    utilization prev curr =
      (if sub64 curr.total prev.total = 0 then 0
       else (100 * (sub64 (sub64 curr.total prev.total) (sub64 curr.idle prev.idle) : ℚ))
              / (sub64 curr.total prev.total : ℚ)) ∧
    utilization ⟨0, 0⟩ ⟨50, 200⟩ = 75 ∧
    utilization ⟨a, t⟩ ⟨b, t⟩ = 0 := by
  refine ⟨?_, ?_, ?_⟩
  · by_cases h : sub64 curr.total prev.total = 0
    · simp [utilization, h]
    · simp [utilization, h, Nat.pos_of_ne_zero h]
  · norm_num [utilization, sub64, W64]
  · simp [utilization, sub64_self]

/-- C4: the control loop selects the high-load profile iff the computed
usage is strictly greater than 40; usage exactly 40 selects low load. -/
theorem classify_threshold (u : ℚ) :
    (classify u = true ↔ u > 40) ∧ classify 40 = false := by
  constructor
  · simp [classify]
  · norm_num [classify]

/-- C5: on an unreadable frequency table, `resolve` with `absoluteMin` or
any percentile mode returns the unresolved sentinel 0 regardless of the
fallback, while `absoluteMax` returns the fallback `cpuinfo_max_freq`
value directly when it is readable; in particular fallback 1200000 gives
1200000 for `absoluteMax` and 0 for any percentile. -/
theorem resolve_unreadable (cm : Option Int) (v : Int) (p : ℚ) :
    resolve ⟨none, cm⟩ Mode.absoluteMin = 0 ∧
    resolve ⟨none, cm⟩ (Mode.percentile p) = 0 ∧
    resolve ⟨none, some v⟩ Mode.absoluteMax = v ∧
    resolve ⟨none, some 1200000⟩ Mode.absoluteMax = 1200000 ∧
    resolve ⟨none, some 1200000⟩ (Mode.percentile p) = 0 :=
  ⟨rfl, rfl, rfl, rfl, rfl⟩

/-- C7 counterexample: on a failed read, `get_cpu_times` does not produce
a zero/zero snapshot — it leaves the out-parameters unchanged, here at
`{idle=5, total=10}`. -/
theorem get_cpu_times_no_zeroing :
    get_cpu_times none ⟨5, 10⟩ = ⟨5, 10⟩ ∧
    (⟨5, 10⟩ : CpuSnapshot) ≠ ⟨0, 0⟩ := by
  exact ⟨rfl, by decide⟩

/-- C7 amended: when `/proc/stat` is unreadable the sampler leaves its
out-parameters unchanged (rather than writing zeroes); since `main`
zero-initializes them, a source unreadable from startup yields the
zero/zero snapshot and usage 0.0 at every tick, and any failed loop
sample at a state with `prev = curr` (the invariant the loop restores at
the end of every iteration) short-circuits to usage 0.0 via the
zero-delta guard, without crashing. -/
theorem unreadable_source_usage_zero (n : Nat) (c : CpuSnapshot) :
    run_loop (init_state none) (List.replicate n none) = List.replicate n 0 ∧
    (loop_step ⟨c, c⟩ none).2 = 0 ∧
    get_cpu_times none c = c := by
  refine ⟨?_, ?_, rfl⟩
  · exact run_loop_const n ⟨0, 0⟩
  · simp [loop_step, get_cpu_times, utilization_self]

/-- C1: for a domain whose absolute bounds resolve (both nonzero), the
high-load profile writes `scaling_max_freq := absoluteMax` strictly
before `scaling_min_freq := Percentile(0.75)`, and the low-load profile
writes `scaling_min_freq := absoluteMin` strictly before
`scaling_max_freq := Percentile(0.50)`; moreover the value pairs satisfy
`target75 ≤ absoluteMax` and `absoluteMin ≤ target50`, so neither write
sequence ends in a min>max state. -/
theorem apply_profile_write_order (fs : DomainFS)
    (hA : resolve fs Mode.absoluteMax ≠ 0)
    (hB : resolve fs Mode.absoluteMin ≠ 0) :
    apply_domain true fs =
      [(BoundFile.maxFreq, resolve fs Mode.absoluteMax),
       (BoundFile.minFreq, resolve fs (Mode.percentile (3/4)))] ∧
    resolve fs (Mode.percentile (3/4)) ≤ resolve fs Mode.absoluteMax ∧
    apply_domain false fs =
      [(BoundFile.minFreq, resolve fs Mode.absoluteMin),
       (BoundFile.maxFreq, resolve fs (Mode.percentile (1/2)))] ∧
    resolve fs Mode.absoluteMin ≤ resolve fs (Mode.percentile (1/2)) := by
  obtain ⟨l, hfs, hne⟩ := resolved_min_readable fs (by simpa [resolve] using hB)
  have hsorted : ((l.take 100).insertionSort (fun a b => a ≤ b)).Sorted (fun a b => a ≤ b) :=
    List.sorted_insertionSort _ _
  have hslen : ((l.take 100).insertionSort (fun a b => a ≤ b)).length = (l.take 100).length :=
    (List.perm_insertionSort _ _).length_eq
  have hcpos : 0 < (l.take 100).length := List.length_pos.mpr hne
  have hlast : (l.take 100).length - 1 <
      ((l.take 100).insertionSort (fun a b => a ≤ b)).length := by
    rw [hslen]; omega
  refine ⟨?_, ?_, ?_, ?_⟩
  · simp only [apply_domain]
    simp [resolve] at hA hB
    simp [hA, hB, resolve]
  · rw [resolve_pct_readable fs l (3/4) hfs hne, resolve_max_readable fs l hfs hne]
    exact getD_le_getD_of_sorted hsorted (min_le_right _ _) hlast
  · simp only [apply_domain]
    simp [resolve] at hA hB
    simp [hA, hB, resolve]
  · rw [resolve_min_readable fs l hfs hne, resolve_pct_readable fs l (1/2) hfs hne]
    exact getD_le_getD_of_sorted hsorted (Nat.zero_le _)
      (lt_of_le_of_lt (min_le_right _ _) hlast)

/-- C1 witness: on the table `[100, 200, 300, 400]` the high-load profile
writes max=400 then min=400, and the low-load profile writes min=100 then
max=300. -/
theorem apply_profile_write_order_witness :
    apply_domain true ⟨some [100, 200, 300, 400], none⟩ =
      [(BoundFile.maxFreq, 400), (BoundFile.minFreq, 400)] ∧
    apply_domain false ⟨some [100, 200, 300, 400], none⟩ =
      [(BoundFile.minFreq, 100), (BoundFile.maxFreq, 300)] := by
  have h := apply_profile_write_order ⟨some [100, 200, 300, 400], none⟩
    (by decide) (by decide)
  have e75 : resolve ⟨some [100, 200, 300, 400], none⟩ (Mode.percentile (3/4)) = 400 := by
    norm_num [resolve, get_target_freq]
    decide
  have e50 : resolve ⟨some [100, 200, 300, 400], none⟩ (Mode.percentile (1/2)) = 300 := by
    norm_num [resolve, get_target_freq]
    decide
  have emax : resolve ⟨some [100, 200, 300, 400], none⟩ Mode.absoluteMax = 400 := by decide
  have emin : resolve ⟨some [100, 200, 300, 400], none⟩ Mode.absoluteMin = 100 := by decide
  exact ⟨h.1.trans (by rw [e75, emax]), h.2.2.1.trans (by rw [e50, emin])⟩

/-- C3: on a readable, already-sorted, nonempty table (within the 100
token parse cap), `resolve` returns the last element for `absoluteMax`,
the first element for `absoluteMin`, and for `Percentile(p)` with
`0 < p ≤ 1` the element at index `⌊count * p⌋` clamped to `count - 1`;
on `[100, 200, 300, 400]`: Percentile(0.75) = 400, Percentile(0.50) = 300,
absoluteMax = 400, absoluteMin = 100. -/
theorem resolve_sorted_table (l : List Int) (cm : Option Int)
    (hne : l ≠ []) (hsort : l.Sorted (fun a b => a ≤ b)) (hlen : l.length ≤ 100) :
    resolve ⟨some l, cm⟩ Mode.absoluteMax = l.getD (l.length - 1) 0 ∧
    resolve ⟨some l, cm⟩ Mode.absoluteMin = l.getD 0 0 ∧
    (∀ p : ℚ, 0 < p → p ≤ 1 →
      resolve ⟨some l, cm⟩ (Mode.percentile p) =
        l.getD (min (⌊(l.length : ℚ) * p⌋).toNat (l.length - 1)) 0) ∧
    resolve ⟨some [100, 200, 300, 400], none⟩ (Mode.percentile (3/4)) = 400 ∧
    resolve ⟨some [100, 200, 300, 400], none⟩ (Mode.percentile (1/2)) = 300 ∧
    resolve ⟨some [100, 200, 300, 400], none⟩ Mode.absoluteMax = 400 ∧
    resolve ⟨some [100, 200, 300, 400], none⟩ Mode.absoluteMin = 100 := by
  have htake : l.take 100 = l := List.take_of_length_le hlen
  have hne' : l.take 100 ≠ [] := by rw [htake]; exact hne
  have hsorteq : (l.take 100).insertionSort (fun a b => a ≤ b) = l := by
    rw [htake]; exact hsort.insertionSort_eq
  refine ⟨?_, ?_, ?_, ?_, ?_, by decide, by decide⟩
  · rw [resolve_max_readable _ l rfl hne', hsorteq, htake]
  · rw [resolve_min_readable _ l rfl hne', hsorteq]
  · intro p hp0 hp1
    rw [resolve_pct_readable _ l p rfl hne', hsorteq, htake]
  · norm_num [resolve, get_target_freq]
    decide
  · norm_num [resolve, get_target_freq]
    decide

/-- C3 witness: the general clauses applied to the concrete sorted table
`[100, 200, 300, 400]` with p = 0.75. -/
theorem resolve_sorted_table_witness :
    resolve ⟨some [100, 200, 300, 400], none⟩ Mode.absoluteMax =
      ([100, 200, 300, 400] : List Int).getD 3 0 ∧
    resolve ⟨some [100, 200, 300, 400], none⟩ (Mode.percentile (3/4)) =
      ([100, 200, 300, 400] : List Int).getD
        (min (⌊(([100, 200, 300, 400] : List Int).length : ℚ) * (3/4)⌋).toNat 3) 0 := by
  have h := resolve_sorted_table [100, 200, 300, 400] none
    (by decide) (by decide) (by decide)
  exact ⟨h.1, h.2.2.1 (3/4) (by norm_num) (by norm_num)⟩

/-- C10: for a readable nonempty table and any percentile `p ∈ [0, 1]`,
the clamped index is strictly within the parsed table's bounds and the
resolved frequency is one of the parsed table entries. -/
theorem percentile_access_in_bounds (l : List Int) (cm : Option Int) (p : ℚ)
    (hne : l ≠ []) (hp0 : 0 ≤ p) (hp1 : p ≤ 1) :
    min (⌊((l.take 100).length : ℚ) * p⌋).toNat ((l.take 100).length - 1) <
      (l.take 100).length ∧
    resolve ⟨some l, cm⟩ (Mode.percentile p) ∈ l.take 100 := by
  have hne' : l.take 100 ≠ [] := by simp [List.take_eq_nil_iff, hne]
  have hcpos : 0 < (l.take 100).length := List.length_pos.mpr hne'
  have hidx : min (⌊((l.take 100).length : ℚ) * p⌋).toNat ((l.take 100).length - 1) <
      (l.take 100).length := by
    have h := min_le_right (⌊((l.take 100).length : ℚ) * p⌋).toNat ((l.take 100).length - 1)
    omega
  refine ⟨hidx, ?_⟩
  rw [resolve_pct_readable _ l p rfl hne']
  have hperm := List.perm_insertionSort (fun a b => a ≤ b) (l.take 100)
  have hlen : ((l.take 100).insertionSort (fun a b => a ≤ b)).length = (l.take 100).length :=
    hperm.length_eq
  have hidx' : min (⌊((l.take 100).length : ℚ) * p⌋).toNat ((l.take 100).length - 1) <
      ((l.take 100).insertionSort (fun a b => a ≤ b)).length := by
    rw [hlen]; exact hidx
  rw [List.getD_eq_getElem _ _ hidx']
  exact hperm.subset (List.getElem_mem hidx')

/-- C10 witness: the bounds property at the concrete table
`[100, 200, 300, 400]` and p = 0.75. -/
theorem percentile_access_in_bounds_witness :
    resolve ⟨some [100, 200, 300, 400], none⟩ (Mode.percentile (3/4)) ∈
      ([100, 200, 300, 400] : List Int).take 100 :=
  (percentile_access_in_bounds [100, 200, 300, 400] none (3/4)
    (by decide) (by norm_num) (by norm_num)).2

/-- Every write produced by `apply_profile_from` starting at index `n`
carries a domain tag at least `n`. -/
lemma apply_profile_from_tag_ge (b : Bool) :
    ∀ (n : Nat) (ds : List DomainFS) (w : Nat × BoundFile × Int),
      w ∈ apply_profile_from b n ds → n ≤ w.1 := by
  intro n ds
  induction ds generalizing n with
  | nil => intro w hw; simp [apply_profile_from] at hw
  | cons fs rest ih =>
      intro w hw
      simp only [apply_profile_from, List.mem_append, List.mem_map] at hw
      rcases hw with ⟨x, _, rfl⟩ | hw
      · exact Nat.le_refl n
      · exact Nat.le_trans (Nat.le_succ n) (ih (n + 1) w hw)

/-- The writes of `apply_profile_from` tagged with index `n + j` are
exactly the writes of the `j`-th domain of the list. -/
lemma apply_profile_from_filter (b : Bool) :
    ∀ (n j : Nat) (ds : List DomainFS) (hj : j < ds.length),
      (apply_profile_from b n ds).filter (fun w => w.1 = n + j) =
        (apply_domain b (ds.get ⟨j, hj⟩)).map (fun w => (n + j, w.1, w.2)) := by
  intro n j ds
  induction ds generalizing n j with
  | nil => intro hj; simp at hj
  | cons fs rest ih =>
      intro hj
      cases j with
      | zero =>
          simp only [Nat.add_zero, apply_profile_from, List.filter_append]
          have h1 : ((apply_domain b fs).map (fun w => (n, w.1, w.2))).filter
              (fun w => decide (w.1 = n)) = (apply_domain b fs).map (fun w => (n, w.1, w.2)) := by
            apply List.filter_eq_self.mpr
            intro w hw
            simp only [List.mem_map] at hw
            rcases hw with ⟨x, _, rfl⟩
            simp
          have h2 : (apply_profile_from b (n + 1) rest).filter
              (fun w => decide (w.1 = n)) = [] := by
            apply List.filter_eq_nil_iff.mpr
            intro w hw
            have hge := apply_profile_from_tag_ge b (n + 1) rest w hw
            simp only [decide_eq_true_eq]
            omega
          rw [h1, h2, List.append_nil]
          rfl
      | succ k =>
          have hadd : n + (k + 1) = (n + 1) + k := by omega
          simp only [apply_profile_from, List.filter_append, hadd]
          have h1 : ((apply_domain b fs).map (fun w => (n, w.1, w.2))).filter
              (fun w => decide (w.1 = (n + 1) + k)) = [] := by
            apply List.filter_eq_nil_iff.mpr
            intro w hw
            simp only [List.mem_map] at hw
            rcases hw with ⟨x, _, rfl⟩
            simp only [decide_eq_true_eq]
            omega
          rw [h1, List.nil_append]
          have hk : k < rest.length := by simpa using Nat.lt_of_succ_lt_succ hj
          rw [ih (n + 1) k hk]
          rfl

/-- The writes of `apply_profile` that touch domain `j` are exactly the
writes of `apply_domain` on the `j`-th discovered domain. -/
lemma domain_writes_apply_profile (b : Bool) (ds : List DomainFS) (j : Nat)
    (hj : j < ds.length) :
    domain_writes (apply_profile b ds) j = apply_domain b (ds.get ⟨j, hj⟩) := by
  unfold domain_writes apply_profile
  have h := apply_profile_from_filter b 0 j ds hj
  simp only [Nat.zero_add] at h
  rw [h, List.map_map]
  simp

/-- A domain whose absolute-maximum or absolute-minimum resolution is 0
produces no writes (the `continue` of `apply_profile`). -/
lemma apply_domain_skip (b : Bool) (fs : DomainFS)
    (h : get_target_freq fs 1 true false = 0 ∨ get_target_freq fs 0 false true = 0) :
    apply_domain b fs = [] := by
  rcases h with h0 | h0 <;> simp [apply_domain, h0]

/-- C6: if a domain's `absoluteMax` or `absoluteMin` resolves to the
unresolved sentinel 0, `apply_profile` performs no boundary writes for
that domain, while every other domain's writes are exactly what
`apply_domain` produces for it alone (independent per-domain updates). -/
theorem skipped_domain_independent (b : Bool) (ds : List DomainFS) (i : Nat)
    (hi : i < ds.length)
    (hskip : resolve (ds.get ⟨i, hi⟩) Mode.absoluteMax = 0 ∨
             resolve (ds.get ⟨i, hi⟩) Mode.absoluteMin = 0) :
    domain_writes (apply_profile b ds) i = [] ∧
    ∀ j, ∀ hj : j < ds.length,
      domain_writes (apply_profile b ds) j = apply_domain b (ds.get ⟨j, hj⟩) := by
  refine ⟨?_, fun j hj => domain_writes_apply_profile b ds j hj⟩
  rw [domain_writes_apply_profile b ds i hi]
  exact apply_domain_skip b _ hskip

/-- C6 witness: with domain 0 unreadable (no table, no fallback) and
domain 1 carrying the table `[100, 200, 300, 400]`, the low-load profile
writes nothing for domain 0 and min=100 then max=300 for domain 1. -/
theorem skipped_domain_independent_witness :
    domain_writes (apply_profile false [⟨none, none⟩, ⟨some [100, 200, 300, 400], none⟩]) 0
      = [] ∧
    domain_writes (apply_profile false [⟨none, none⟩, ⟨some [100, 200, 300, 400], none⟩]) 1
      = [(BoundFile.minFreq, 100), (BoundFile.maxFreq, 300)] := by
  have h := skipped_domain_independent false
    [⟨none, none⟩, ⟨some [100, 200, 300, 400], none⟩] 0 (by decide) (Or.inl (by decide))
  refine ⟨h.1, (h.2 1 (by decide)).trans ?_⟩
  show apply_domain false ⟨some [100, 200, 300, 400], none⟩ =
    [(BoundFile.minFreq, 100), (BoundFile.maxFreq, 300)]
  have e50 : get_target_freq ⟨some [100, 200, 300, 400], none⟩ (1/2) false false = 300 := by
    norm_num [get_target_freq]
    decide
  simp only [apply_domain]
  rw [e50]
  decide

/-- C8 counterexample: resolution is not invariant under permutation of
the token order for lists longer than the 100-token parse cap.  The list
of one hundred 2s followed by a 1 is a permutation of the 1 followed by
one hundred 2s, yet `absoluteMin` resolves to 2 on the former (the 1 is
beyond the cap and dropped) and to 1 on the latter. -/
theorem resolve_perm_counterexample :
    (List.replicate 100 (2 : Int) ++ [1]).Perm (1 :: List.replicate 100 (2 : Int)) ∧
    resolve ⟨some (List.replicate 100 (2 : Int) ++ [1]), none⟩ Mode.absoluteMin ≠
      resolve ⟨some (1 :: List.replicate 100 (2 : Int)), none⟩ Mode.absoluteMin := by
  constructor
  · exact List.perm_append_comm
  · decide

/-- C8 amended: resolving the same unmodified table twice with the same
mode yields the same value, and for token lists within the 100-token
parse cap, resolving any permutation of the input token order yields the
same value as resolving the original order. -/
theorem resolve_perm_invariant (l l' : List Int) (cm cm' : Option Int) (m : Mode)
    (hlen : l.length ≤ 100) (hperm : l.Perm l') :
    resolve ⟨some l, cm⟩ m = resolve ⟨some l', cm'⟩ m ∧
    resolve ⟨some l, cm⟩ m = resolve ⟨some l, cm⟩ m := by
  have hlen' : l'.length = l.length := hperm.length_eq.symm
  have ht : l.take 100 = l := List.take_of_length_le hlen
  have ht' : l'.take 100 = l' := List.take_of_length_le (by omega)
  have hsorteq : l.insertionSort (fun a b => a ≤ b) = l'.insertionSort (fun a b => a ≤ b) :=
    List.eq_of_perm_of_sorted
      ((List.perm_insertionSort _ _).trans (hperm.trans (List.perm_insertionSort _ _).symm))
      (List.sorted_insertionSort _ _) (List.sorted_insertionSort _ _)
  refine ⟨?_, rfl⟩
  cases m <;>
    simp only [resolve, get_target_freq, ht, ht', hsorteq, hlen']

/-- C8 witness: the permutation clause applied to `[3, 1, 2]` and
`[2, 1, 3]`. -/
theorem resolve_perm_invariant_witness :
    resolve ⟨some [3, 1, 2], none⟩ Mode.absoluteMax =
      resolve ⟨some [2, 1, 3], none⟩ Mode.absoluteMax :=
  (resolve_perm_invariant [3, 1, 2] [2, 1, 3] none none Mode.absoluteMax
    (by decide) (by decide)).1

/-- C9: when a domain's absolute bounds both resolve to nonzero values
but the profile's percentile target resolves to the sentinel 0, the
domain is not skipped: the literal value 0 is written to the
corresponding boundary control file (the minimum bound under high load,
the maximum bound under low load). -/
theorem zero_target_written (b : Bool) (fs : DomainFS)
    (hA : resolve fs Mode.absoluteMax ≠ 0)
    (hB : resolve fs Mode.absoluteMin ≠ 0)
    (hT : resolve fs (Mode.percentile (if b then 3/4 else 1/2)) = 0) :
    apply_domain b fs =
      (if b then [(BoundFile.maxFreq, resolve fs Mode.absoluteMax), (BoundFile.minFreq, 0)]
       else [(BoundFile.minFreq, resolve fs Mode.absoluteMin), (BoundFile.maxFreq, 0)]) := by
  simp only [resolve] at hA hB hT
  cases b <;> simp_all [apply_domain, resolve]

/-- C9 witness: on the parsed table `[-5, 0, 1]` the absolute bounds are
-5 and 1 (both nonzero) while the 50th-percentile target is the table
entry 0, and the low-load profile writes min=-5 then max=0. -/
theorem zero_target_written_witness :
    apply_domain false ⟨some [-5, 0, 1], none⟩ =
      [(BoundFile.minFreq, -5), (BoundFile.maxFreq, 0)] := by
  have h := zero_target_written false ⟨some [-5, 0, 1], none⟩ (by decide) (by decide)
    (by norm_num [resolve, get_target_freq])
  exact h.trans (by decide)
